import Mathlib

/-!
Verification development of the download task scheduler in
`backend/worker/download_manager.py` (class `DownloadManager`) and the
artifact cleanup in `backend/simple_downloader.py`.

The Python state (`self.tasks`, `self.cancel_flags`, `self.queue`) is
embedded as association lists keyed by task id; `datetime.now()` is
modelled by a logical clock `now` that strictly increases at every
mutation, so `updated_at` stamps are faithful to "non-decreasing wall
clock".  Progress percentages (Python floats parsed from yt-dlp's
percent string) are modelled as rationals.
-/

namespace VideoCode

/-- The status enum from `backend/models.py` (`DownloadStatus`). -/
inductive DownloadStatus
  | queued
  | fetching_info
  | downloading
  | processing
  | completed
  | failed
  | cancelled
  deriving DecidableEq, Repr

/-- The per-task record from `backend/models.py` (`DownloadProgress`). -/
structure DownloadProgress where
  task_id : String
  status : DownloadStatus
  title : Option String := none
  progress : Rat := 0
  speed : Option String := none
  eta : Option String := none
  downloaded_bytes : Option Nat := none
  total_bytes : Option Nat := none
  error : Option String := none
  file_path : Option String := none
  created_at : Nat
  updated_at : Nat
  deriving DecidableEq, Repr

/-- One queued item, the dict pushed by `DownloadManager.add_download`. -/
structure QueueItem where
  task_id : String
  url : String
  format : String
  quality : String
  audio_only : Bool
  playlist_items : Option (List Int)
  deriving DecidableEq, Repr

/-- The parameters of `DownloadManager.add_download` (with their Python defaults). -/
structure AddRequest where
  url : String
  format : String := "mp4"
  quality : String := "best"
  audio_only : Bool := false
  playlist_items : Option (List Int) := none
  deriving DecidableEq, Repr

/-- Lookup in an association list: Python `dict.get` / `dict[k]` on presence. -/
def getKey? (k : String) : List (String × α) → Option α
  | [] => none
  | (k', v) :: rest => if k' = k then some v else getKey? k rest

/-- Python `dict[k] = v`: replace the binding if present, else append. -/
def setKey (k : String) (v : α) : List (String × α) → List (String × α)
  | [] => [(k, v)]
  | (k', v') :: rest => if k' = k then (k, v) :: rest else (k', v') :: setKey k v rest

/-- Python `del dict[k]` / `dict.pop(k, None)`: drop the binding for `k`. -/
def eraseKey (k : String) : List (String × α) → List (String × α)
  | [] => []
  | (k', v') :: rest => if k' = k then rest else (k', v') :: eraseKey k rest

/-- The mutable state of a `DownloadManager`: `self.tasks`, `self.cancel_flags`,
the pending `asyncio.Queue` contents, and the logical clock standing for
`datetime.now()`. -/
structure ManagerState where
  tasks : List (String × DownloadProgress)
  cancel_flags : List (String × Bool)
  queue : List QueueItem
  now : Nat
  deriving DecidableEq, Repr

/-- The empty manager. -/
def empty_state : ManagerState := ⟨[], [], [], 0⟩

/-- Embeds `DownloadManager._update_task`: if the id is stored, apply the keyword
assignments `f` and stamp `updated_at`; otherwise do nothing.  The clock
advances so that successive stamps differ. -/
def update_task (task_id : String) (f : DownloadProgress → DownloadProgress)
    (s : ManagerState) : ManagerState :=
  match getKey? task_id s.tasks with
  | none => s
  | some t =>
      { s with
        tasks := setKey task_id { f t with updated_at := s.now } s.tasks
        now := s.now + 1 }

/-- Embeds `DownloadManager.get_task`. -/
def get_task (task_id : String) (s : ManagerState) : Option DownloadProgress :=
  getKey? task_id s.tasks

/-- Embeds `self.cancel_flags.get(task_id, False)`. -/
def get_flag (task_id : String) (s : ManagerState) : Bool :=
  (getKey? task_id s.cancel_flags).getD false

/-- Embeds `asyncio.Queue.full()`: `False` when `maxsize <= 0`, else `qsize() >= maxsize`. -/
def queue_full (maxQueueSize : Int) (s : ManagerState) : Bool :=
  if maxQueueSize ≤ 0 then false else maxQueueSize ≤ (s.queue.length : Int)

/-- Embeds `DownloadManager.add_download`: reject when the queue is full (the raised
`ValueError`'s message), otherwise create the `Queued` record, a `False`
cancellation flag, and push the item.  `task_id` stands for the freshly
generated uuid prefix.  Note the Python body performs no validation of the
request fields. -/
def add_download (maxQueueSize : Int) (task_id : String) (req : AddRequest)
    (s : ManagerState) : Except String (ManagerState × String) :=
  if queue_full maxQueueSize s then
    .error "Download queue is full. Please wait for some downloads to complete."
  else
    let t : DownloadProgress :=
      { task_id := task_id, status := .queued, progress := 0,
        created_at := s.now, updated_at := s.now }
    let item : QueueItem :=
      { task_id := task_id, url := req.url, format := req.format,
        quality := req.quality, audio_only := req.audio_only,
        playlist_items := req.playlist_items }
    .ok ({ s with
            tasks := setKey task_id t s.tasks
            cancel_flags := setKey task_id false s.cancel_flags
            queue := s.queue ++ [item]
            now := s.now + 1 },
         task_id)

/-- Embeds `DownloadManager.cancel_download`: only a stored task whose status is in
`[QUEUED, DOWNLOADING, FETCHING_INFO]` is cancelled; the flag is set and the
status optimistically written `CANCELLED`.  Everything else returns `False`. -/
def cancel_download (task_id : String) (s : ManagerState) : Bool × ManagerState :=
  match getKey? task_id s.tasks with
  | none => (false, s)
  | some t =>
      if t.status ∈ [DownloadStatus.queued, .downloading, .fetching_info] then
        (true,
         { s with
            cancel_flags := setKey task_id true s.cancel_flags
            tasks := setKey task_id { t with status := .cancelled, updated_at := s.now } s.tasks
            now := s.now + 1 })
      else (false, s)

/-- Embeds `DownloadManager.remove_task`: delete the record and pop its flag. -/
def remove_task (task_id : String) (s : ManagerState) : Bool × ManagerState :=
  match getKey? task_id s.tasks with
  | none => (false, s)
  | some _ =>
      (true,
       { s with
          tasks := eraseKey task_id s.tasks
          cancel_flags := eraseKey task_id s.cancel_flags })

/-- Embeds `task.status in [COMPLETED, FAILED, CANCELLED]` (the terminal test used by
`clear_completed`). -/
def isTerminal (st : DownloadStatus) : Bool :=
  st ∈ [DownloadStatus.completed, .failed, .cancelled]

/-- Embeds `DownloadManager.clear_completed`: collect the ids of terminal records,
delete each record and pop each flag, return how many were removed. -/
def clear_completed (s : ManagerState) : Nat × ManagerState :=
  let to_remove := (s.tasks.filter (fun p => isTerminal p.2.status)).map (fun p => p.1)
  (to_remove.length,
   { s with
      tasks := to_remove.foldl (fun ts tid => eraseKey tid ts) s.tasks
      cancel_flags := to_remove.foldl (fun fs tid => eraseKey tid fs) s.cancel_flags })

/-! ## Worker small-step semantics

`DownloadManager._worker` dequeues an item and hands it to
`_download_video`, which runs in the thread pool while the scheduler's
public methods may run concurrently.  We embed one worker's execution of
one item as a sequence of atomic steps (each step is one `_update_task`
call or one flag read — the granularity at which `self.lock` serialises
against the scheduler), with arbitrary scheduler calls interleaved
between steps.  The outcomes of the external yt-dlp calls are the
worker's script: the `extract_info` result and the list of progress-hook
invocations that fire during `ydl.download`. -/

/-- One yt-dlp progress-hook invocation as consumed by
`DownloadManager._progress_hook`.  In `downloading`, `percent = some p`
means `float(d['_percent_str'].replace('%','').strip())` evaluated to `p`
(a missing `'_percent_str'` key defaults to `'0%'`, i.e. `some 0`), and
`percent = none` means the `float(...)` call raised, so the bare `except`
skips the whole update.  `other` is any hook status besides
`'downloading'`/`'finished'`, which the `if`/`elif` chain ignores. -/
inductive HookEvent
  | downloading (percent : Option Rat) (speed : String) (eta : String)
      (downloaded_bytes : Nat) (total_bytes : Nat)
  | finished
  | other
  deriving DecidableEq, Repr

/-- One dequeued work item together with the scripted behaviour of the
external yt-dlp calls made for it: `extract` is the `extract_info`
outcome (`.ok title` with `info.get('title', 'Video')`, or `.error e`
with `str(e)` of the raised exception), `hooks` the progress-hook
invocations fired by `ydl.download`, and `file_path` the prepared output
filename. -/
structure WorkerJob where
  task_id : String
  extract : Except String String
  hooks : List HookEvent
  file_path : String
  deriving Repr

/-- The body of `_progress_hook` after its cancellation check. -/
def apply_hook (task_id : String) (ev : HookEvent) (s : ManagerState) : ManagerState :=
  match ev with
  | .downloading percent speed eta dl tot =>
      match percent with
      | none => s
      | some p =>
          update_task task_id (fun t =>
            { t with progress := p, speed := some speed, eta := some eta,
                     downloaded_bytes := some dl, total_bytes := some tot }) s
  | .finished =>
      update_task task_id (fun t => { t with status := .processing, progress := 100 }) s
  | .other => s

/-- Program counter of a worker executing one item.
`precheck` is the cancellation check in `_worker` before `_download_video`
starts; `set_fetching` the initial `FETCHING_INFO` write; `extracting`
the `extract_info` call; `check_cancel` the flag check after the
`DOWNLOADING` write; `downloading hs` the `ydl.download` call with the
remaining hook invocations `hs` (when `hs = []` the download returns and
the unconditional `COMPLETED` write runs); `done` means `_download_video`
returned. -/
inductive WorkerPc
  | precheck
  | set_fetching
  | extracting
  | check_cancel
  | downloading (hooks : List HookEvent)
  | done
  deriving DecidableEq, Repr

/-- One atomic worker step.  A hook invocation first checks the flag and
raises `Exception("Download cancelled")`, which unwinds `ydl.download`
into `_download_video`'s `except` clause, writing `FAILED` with that
message; an `extract_info` error reaches the same `except` clause with
its own message.  The final `COMPLETED` write is not guarded by any
cancellation check. -/
def worker_step (job : WorkerJob) (s : ManagerState) (pc : WorkerPc) :
    ManagerState × WorkerPc :=
  match pc with
  | .precheck =>
      if get_flag job.task_id s then
        (update_task job.task_id (fun t => { t with status := .cancelled }) s, .done)
      else (s, .set_fetching)
  | .set_fetching =>
      (update_task job.task_id (fun t => { t with status := .fetching_info }) s, .extracting)
  | .extracting =>
      match job.extract with
      | .error e =>
          (update_task job.task_id (fun t => { t with status := .failed, error := some e }) s,
           .done)
      | .ok title =>
          (update_task job.task_id (fun t => { t with title := some title, status := .downloading }) s,
           .check_cancel)
  | .check_cancel =>
      if get_flag job.task_id s then
        (update_task job.task_id (fun t => { t with status := .cancelled }) s, .done)
      else (s, .downloading job.hooks)
  | .downloading (ev :: rest) =>
      if get_flag job.task_id s then
        (update_task job.task_id
            (fun t => { t with status := .failed, error := some "Download cancelled" }) s,
         .done)
      else (apply_hook job.task_id ev s, .downloading rest)
  | .downloading [] =>
      (update_task job.task_id
          (fun t => { t with status := .completed, progress := 100,
                             file_path := some job.file_path }) s,
       .done)
  | .done => (s, .done)

/-- An interleaved step: either the worker advances, or the scheduler
serves a public call. -/
inductive Action
  | wstep
  | cancel (task_id : String)
  | remove (task_id : String)
  | clear
  deriving DecidableEq, Repr

/-- Execute one interleaved action. -/
def exec_action (job : WorkerJob) (a : Action) (c : ManagerState × WorkerPc) :
    ManagerState × WorkerPc :=
  match a with
  | .wstep => worker_step job c.1 c.2
  | .cancel tid => ((cancel_download tid c.1).2, c.2)
  | .remove tid => ((remove_task tid c.1).2, c.2)
  | .clear => ((clear_completed c.1).2, c.2)

/-- Run a list of interleaved actions. -/
def run_trace (job : WorkerJob) (acts : List Action) (c : ManagerState × WorkerPc) :
    ManagerState × WorkerPc :=
  acts.foldl (fun c a => exec_action job a c) c

/-- A full uninterleaved execution of one dequeued item (`_worker` body:
the pre-check then `_download_video` run to completion); `hooks.length + 5`
worker steps always suffice to reach `done`. -/
def process_item (job : WorkerJob) (s : ManagerState) : ManagerState × WorkerPc :=
  run_trace job (List.replicate (job.hooks.length + 5) .wstep) (s, .precheck)

/-- The worker loop across successive queue items, each run to completion. -/
def worker_loop (jobs : List WorkerJob) (s : ManagerState) : ManagerState :=
  jobs.foldl (fun s j => (process_item j s).1) s

/-! ## Artifact cleanup (`backend/simple_downloader.py`)

The filesystem is modelled as the list of existing entries, each a path
given by its components; a directory's tree is every path it prefixes. -/

/-- The `DownloadArtifact` dataclass of `backend/simple_downloader.py`
(paths as component lists). -/
structure DownloadArtifact where
  filepath : List String
  filename : String
  filesize : Option Nat
  workspace : List String
  deriving DecidableEq, Repr

/-- Embeds `shutil.rmtree(dir, ignore_errors=True)`: remove `dir` and everything
under it; with `ignore_errors=True` it never raises, in particular not on
an already-absent path. -/
def rmtree_ignore_errors (dir : List String) (fs : List (List String)) :
    List (List String) :=
  fs.filter (fun p => ! dir.isPrefixOf p)

/-- Embeds `cleanup_artifact(artifact)`: `shutil.rmtree(artifact.workspace,
ignore_errors=True)` inside a `try`/`except` that logs and swallows any
exception, so the call always returns normally; `.ok` is the normal
return, `.error` would be a propagated exception. -/
def cleanup_artifact (a : DownloadArtifact) (fs : List (List String)) :
    Except String (List (List String)) :=
  .ok (rmtree_ignore_errors a.workspace fs)

/-! ## Association-list lemmas -/

/-- The key set of an association list. -/
def keys (l : List (String × α)) : List String := l.map Prod.fst

theorem keys_cons (a : String) (b : α) (l : List (String × α)) :
    keys ((a, b) :: l) = a :: keys l := rfl

theorem getKey?_setKey_self (k : String) (v : α) (l : List (String × α)) :
    getKey? k (setKey k v l) = some v := by
  induction l with
  | nil => simp [setKey, getKey?]
  | cons hd tl ih =>
      obtain ⟨a, b⟩ := hd
      by_cases h : a = k <;> simp [setKey, getKey?, h, ih]

theorem getKey?_setKey_ne (k k' : String) (v : α) (l : List (String × α))
    (h : k ≠ k') : getKey? k (setKey k' v l) = getKey? k l := by
  have h' : ¬ (k' = k) := fun hh => h hh.symm
  induction l with
  | nil => simp [setKey, getKey?, h']
  | cons hd tl ih =>
      obtain ⟨a, b⟩ := hd
      by_cases h1 : a = k'
      · subst h1
        simp [setKey, getKey?, h']
      · by_cases h2 : a = k <;> simp [setKey, getKey?, h, h1, h2, ih]

theorem getKey?_eraseKey_ne (k k' : String) (l : List (String × α))
    (h : k ≠ k') : getKey? k (eraseKey k' l) = getKey? k l := by
  have h' : ¬ (k' = k) := fun hh => h hh.symm
  induction l with
  | nil => simp [eraseKey]
  | cons hd tl ih =>
      obtain ⟨a, b⟩ := hd
      by_cases h1 : a = k'
      · subst h1
        simp [eraseKey, getKey?, h']
      · by_cases h2 : a = k <;> simp [eraseKey, getKey?, h, h1, h2, ih]

theorem getKey?_eq_none_iff (k : String) (l : List (String × α)) :
    getKey? k l = none ↔ k ∉ keys l := by
  induction l with
  | nil => simp [getKey?, keys]
  | cons hd tl ih =>
      obtain ⟨a, b⟩ := hd
      rw [keys_cons, List.mem_cons]
      by_cases h : a = k
      · subst h
        simp [getKey?]
      · have h' : ¬ (k = a) := fun hh => h hh.symm
        simp [getKey?, h, h', ih]

theorem mem_of_getKey?_eq_some {k : String} {v : α} {l : List (String × α)}
    (h : getKey? k l = some v) : (k, v) ∈ l := by
  induction l with
  | nil => simp [getKey?] at h
  | cons hd tl ih =>
      obtain ⟨a, b⟩ := hd
      by_cases h1 : a = k
      · subst h1
        rw [getKey?, if_pos rfl, Option.some_inj] at h
        subst h
        exact List.mem_cons_self _ _
      · rw [getKey?, if_neg h1] at h
        exact List.mem_cons_of_mem _ (ih h)

theorem getKey?_eq_some_of_mem {k : String} {v : α} {l : List (String × α)}
    (hnd : (keys l).Nodup) (h : (k, v) ∈ l) : getKey? k l = some v := by
  induction l with
  | nil => simp at h
  | cons hd tl ih =>
      obtain ⟨a, b⟩ := hd
      rw [keys_cons, List.nodup_cons] at hnd
      rcases List.mem_cons.mp h with h1 | h1
      · rw [Prod.mk.injEq] at h1
        rw [getKey?, if_pos h1.1.symm, h1.2]
      · have hk : ¬ (a = k) := by
          intro he
          subst he
          exact hnd.1 (List.mem_map.mpr ⟨(a, v), h1, rfl⟩)
        rw [getKey?, if_neg hk]
        exact ih hnd.2 h1

theorem eraseKey_sublist (k : String) (l : List (String × α)) :
    (eraseKey k l).Sublist l := by
  induction l with
  | nil => simp [eraseKey]
  | cons hd tl ih =>
      obtain ⟨a, b⟩ := hd
      by_cases h : a = k
      · rw [eraseKey, if_pos h]
        exact List.sublist_cons_self _ _
      · rw [eraseKey, if_neg h]
        exact List.Sublist.cons₂ _ ih

theorem nodup_keys_eraseKey (k : String) (l : List (String × α))
    (h : (keys l).Nodup) : (keys (eraseKey k l)).Nodup :=
  List.Nodup.sublist (List.Sublist.map Prod.fst (eraseKey_sublist k l)) h

theorem getKey?_eraseKey_self (k : String) (l : List (String × α))
    (h : (keys l).Nodup) : getKey? k (eraseKey k l) = none := by
  induction l with
  | nil => simp [eraseKey, getKey?]
  | cons hd tl ih =>
      obtain ⟨a, b⟩ := hd
      rw [keys_cons, List.nodup_cons] at h
      by_cases h1 : a = k
      · rw [eraseKey, if_pos h1, getKey?_eq_none_iff]
        exact h1 ▸ h.1
      · rw [eraseKey, if_neg h1, getKey?, if_neg h1]
        exact ih h.2

theorem mem_keys_setKey (k' k : String) (v : α) (l : List (String × α)) :
    k' ∈ keys (setKey k v l) ↔ k' = k ∨ k' ∈ keys l := by
  induction l with
  | nil => simp [setKey, keys]
  | cons hd tl ih =>
      obtain ⟨a, b⟩ := hd
      by_cases h : a = k
      · subst h
        rw [setKey, if_pos rfl, keys_cons, keys_cons]
        simp only [List.mem_cons]
        tauto
      · rw [setKey, if_neg h, keys_cons, keys_cons, List.mem_cons, List.mem_cons, ih]
        tauto

theorem nodup_keys_setKey (k : String) (v : α) (l : List (String × α))
    (h : (keys l).Nodup) : (keys (setKey k v l)).Nodup := by
  induction l with
  | nil => simp [setKey, keys]
  | cons hd tl ih =>
      obtain ⟨a, b⟩ := hd
      rw [keys_cons, List.nodup_cons] at h
      by_cases h1 : a = k
      · subst h1
        rw [setKey, if_pos rfl, keys_cons, List.nodup_cons]
        exact ⟨h.1, h.2⟩
      · rw [setKey, if_neg h1, keys_cons, List.nodup_cons]
        refine ⟨?_, ih h.2⟩
        intro hmem
        rcases (mem_keys_setKey a k v tl).mp hmem with h2 | h2
        · exact h1 h2
        · exact h.1 h2

theorem foldl_eraseKey_sublist (ids : List String) (l : List (String × α)) :
    (ids.foldl (fun acc i => eraseKey i acc) l).Sublist l := by
  induction ids generalizing l with
  | nil => exact List.Sublist.refl l
  | cons hd tl ih =>
      rw [List.foldl_cons]
      exact (ih (eraseKey hd l)).trans (eraseKey_sublist hd l)

theorem nodup_keys_foldl_eraseKey (ids : List String) (l : List (String × α))
    (h : (keys l).Nodup) :
    (keys (ids.foldl (fun acc i => eraseKey i acc) l)).Nodup :=
  List.Nodup.sublist (List.Sublist.map Prod.fst (foldl_eraseKey_sublist ids l)) h

theorem getKey?_foldl_eraseKey_not_mem (ids : List String) (l : List (String × α))
    (k : String) (h : k ∉ ids) :
    getKey? k (ids.foldl (fun acc i => eraseKey i acc) l) = getKey? k l := by
  induction ids generalizing l with
  | nil => rfl
  | cons hd tl ih =>
      have h1 : k ≠ hd := fun he => h (he ▸ List.mem_cons_self _ _)
      rw [List.foldl_cons, ih (eraseKey hd l) (fun hm => h (List.mem_cons_of_mem _ hm)),
        getKey?_eraseKey_ne _ _ _ h1]

theorem getKey?_foldl_eraseKey_of_none (ids : List String) (l : List (String × α))
    (k : String) (h : getKey? k l = none) :
    getKey? k (ids.foldl (fun acc i => eraseKey i acc) l) = none := by
  rw [getKey?_eq_none_iff] at h ⊢
  intro hm
  exact h ((List.Sublist.map Prod.fst (foldl_eraseKey_sublist ids l)).subset hm)

theorem getKey?_foldl_eraseKey_mem (ids : List String) (l : List (String × α))
    (k : String) (hnd : (keys l).Nodup) (h : k ∈ ids) :
    getKey? k (ids.foldl (fun acc i => eraseKey i acc) l) = none := by
  induction ids generalizing l with
  | nil => simp at h
  | cons hd tl ih =>
      rw [List.foldl_cons]
      by_cases he : k = hd
      · subst he
        exact getKey?_foldl_eraseKey_of_none _ _ _ (getKey?_eraseKey_self k l hnd)
      · exact ih (eraseKey hd l) (nodup_keys_eraseKey hd l hnd)
          ((List.mem_cons.mp h).resolve_left he)

/-! ## Frame lemmas for the worker -/

theorem update_task_flags (id : String) (f : DownloadProgress → DownloadProgress)
    (s : ManagerState) : (update_task id f s).cancel_flags = s.cancel_flags := by
  cases h : getKey? id s.tasks <;> simp [update_task, h]

theorem update_task_queue (id : String) (f : DownloadProgress → DownloadProgress)
    (s : ManagerState) : (update_task id f s).queue = s.queue := by
  cases h : getKey? id s.tasks <;> simp [update_task, h]

theorem get_task_update_task_ne (k id : String) (f : DownloadProgress → DownloadProgress)
    (s : ManagerState) (h : k ≠ id) : get_task k (update_task id f s) = get_task k s := by
  cases hh : getKey? id s.tasks <;>
    simp [update_task, get_task, hh, getKey?_setKey_ne _ _ _ _ h]

theorem apply_hook_flags (id : String) (ev : HookEvent) (s : ManagerState) :
    (apply_hook id ev s).cancel_flags = s.cancel_flags := by
  cases ev with
  | downloading percent speed eta dl tot =>
      cases percent <;> simp [apply_hook, update_task_flags]
  | finished => simp [apply_hook, update_task_flags]
  | other => rfl

theorem get_task_apply_hook_ne (k id : String) (ev : HookEvent) (s : ManagerState)
    (h : k ≠ id) : get_task k (apply_hook id ev s) = get_task k s := by
  cases ev with
  | downloading percent speed eta dl tot =>
      cases percent <;> simp [apply_hook, get_task_update_task_ne _ _ _ _ h]
  | finished => simp [apply_hook, get_task_update_task_ne _ _ _ _ h]
  | other => rfl

theorem worker_step_flags (job : WorkerJob) (s : ManagerState) (pc : WorkerPc) :
    (worker_step job s pc).1.cancel_flags = s.cancel_flags := by
  cases pc with
  | precheck =>
      by_cases h : get_flag job.task_id s <;> simp [worker_step, h, update_task_flags]
  | set_fetching => simp [worker_step, update_task_flags]
  | extracting =>
      cases hext : job.extract <;> simp [worker_step, hext, update_task_flags]
  | check_cancel =>
      by_cases h : get_flag job.task_id s <;> simp [worker_step, h, update_task_flags]
  | downloading hs =>
      cases hs with
      | nil => simp [worker_step, update_task_flags]
      | cons ev rest =>
          by_cases h : get_flag job.task_id s <;>
            simp [worker_step, h, update_task_flags, apply_hook_flags]
  | done => rfl

theorem get_task_worker_step_ne (job : WorkerJob) (s : ManagerState) (pc : WorkerPc)
    (k : String) (h : k ≠ job.task_id) :
    get_task k (worker_step job s pc).1 = get_task k s := by
  cases pc with
  | precheck =>
      by_cases hf : get_flag job.task_id s <;>
        simp [worker_step, hf, get_task_update_task_ne _ _ _ _ h]
  | set_fetching => simp [worker_step, get_task_update_task_ne _ _ _ _ h]
  | extracting =>
      cases hext : job.extract <;>
        simp [worker_step, hext, get_task_update_task_ne _ _ _ _ h]
  | check_cancel =>
      by_cases hf : get_flag job.task_id s <;>
        simp [worker_step, hf, get_task_update_task_ne _ _ _ _ h]
  | downloading hs =>
      cases hs with
      | nil => simp [worker_step, get_task_update_task_ne _ _ _ _ h]
      | cons ev rest =>
          by_cases hf : get_flag job.task_id s <;>
            simp [worker_step, hf, get_task_update_task_ne _ _ _ _ h,
              get_task_apply_hook_ne _ _ _ _ h]
  | done => rfl

theorem run_trace_nil (job : WorkerJob) (c : ManagerState × WorkerPc) :
    run_trace job [] c = c := rfl

theorem run_trace_cons (job : WorkerJob) (a : Action) (acts : List Action)
    (c : ManagerState × WorkerPc) :
    run_trace job (a :: acts) c = run_trace job acts (exec_action job a c) := rfl

theorem worker_step_done (job : WorkerJob) (s : ManagerState) :
    worker_step job s .done = (s, .done) := rfl

theorem run_wsteps_done (job : WorkerJob) (n : Nat) (s : ManagerState) :
    run_trace job (List.replicate n .wstep) (s, .done) = (s, .done) := by
  induction n with
  | zero => rfl
  | succ m ih => rw [List.replicate_succ, run_trace_cons]; exact ih

theorem flags_run_wsteps (job : WorkerJob) (n : Nat) (s : ManagerState) (pc : WorkerPc) :
    (run_trace job (List.replicate n .wstep) (s, pc)).1.cancel_flags = s.cancel_flags := by
  induction n generalizing s pc with
  | zero => rfl
  | succ m ih =>
      rw [List.replicate_succ, run_trace_cons]
      show (run_trace job (List.replicate m .wstep) (worker_step job s pc)).1.cancel_flags = _
      rw [show worker_step job s pc = ((worker_step job s pc).1, (worker_step job s pc).2) from rfl]
      rw [ih (worker_step job s pc).1 (worker_step job s pc).2, worker_step_flags]

theorem get_task_run_wsteps_ne (job : WorkerJob) (n : Nat) (s : ManagerState)
    (pc : WorkerPc) (k : String) (h : k ≠ job.task_id) :
    get_task k (run_trace job (List.replicate n .wstep) (s, pc)).1 = get_task k s := by
  induction n generalizing s pc with
  | zero => rfl
  | succ m ih =>
      rw [List.replicate_succ, run_trace_cons]
      show get_task k (run_trace job (List.replicate m .wstep) (worker_step job s pc)).1 = _
      rw [show worker_step job s pc = ((worker_step job s pc).1, (worker_step job s pc).2) from rfl]
      rw [ih (worker_step job s pc).1 (worker_step job s pc).2,
        get_task_worker_step_ne _ _ _ _ h]

/-! ## Concrete fixtures used by counterexamples and witnesses -/

/-- A plain request. -/
def base_request : AddRequest := { url := "https://example.com/v" }

/-- A request with an empty URL (the spec's prime example of a request that
validation should reject). -/
def empty_url_request : AddRequest := { url := "" }

/-- The manager state right after `add_download` of task `t1` on a fresh
manager: one `Queued` record, one `false` flag, one queued item. -/
def st_t1 : ManagerState :=
  { tasks := [("t1", { task_id := "t1", status := .queued, created_at := 0, updated_at := 0 })],
    cancel_flags := [("t1", false)],
    queue := [{ task_id := "t1", url := "https://example.com/v", format := "mp4",
                quality := "best", audio_only := false, playlist_items := none }],
    now := 1 }

theorem st_t1_from_add :
    add_download 50 "t1" base_request empty_state = .ok (st_t1, "t1") := rfl

/-- A manager holding one task in `Processing`. -/
def processing_state : ManagerState :=
  { tasks := [("t1", { task_id := "t1", status := .processing, created_at := 0, updated_at := 0 })],
    cancel_flags := [("t1", false)],
    queue := [],
    now := 1 }

/-- A manager whose queue holds one pending item. -/
def one_item_queue_state : ManagerState := st_t1

/-! ## Claim theorems -/

/-- Claim C3: if at the moment `add_download` is called the pending queue
already holds `MaxQueueSize` items (`MaxQueueSize` positive, as configured),
the call fails with the queue-full error before generating an id, creating a
record or flag, or pushing a queue entry — the error return carries no new
state, so the scheduler state is unchanged and the request is reported to the
caller rather than dropped. -/
theorem add_download_rejects_when_full (maxQ : Int) (tid : String) (req : AddRequest)
    (s : ManagerState) (hpos : 0 < maxQ) (hlen : (s.queue.length : Int) = maxQ) :
    add_download maxQ tid req s =
      .error "Download queue is full. Please wait for some downloads to complete." := by
  have hq : queue_full maxQ s = true := by
    unfold queue_full
    rw [if_neg (not_le.mpr hpos)]
    exact decide_eq_true (le_of_eq hlen.symm)
  simp [add_download, hq]

theorem add_download_rejects_when_full_witness :
    add_download 1 "t2" base_request one_item_queue_state =
      .error "Download queue is full. Please wait for some downloads to complete." :=
  add_download_rejects_when_full 1 "t2" base_request one_item_queue_state
    (by decide) (by decide)

/-- Claim C6 counterexample: `add_download` performs no request validation —
an enqueue with an empty URL does not fail with a validation error; it
succeeds and a `Queued` `TaskRecord` is created for it. -/
theorem add_download_accepts_empty_url :
    (add_download 50 "t1" empty_url_request empty_state).toOption.map
        (fun p => (get_task "t1" p.1).map (fun t => t.status)) =
      some (some .queued) := rfl

/-- Claim C6 (amended): `add_download` validates nothing — every request
(whatever its URL, format, quality or playlist indices), when the queue is
not full, is accepted: a `Queued` record and a `false` flag are created and
the item is pushed. -/
theorem add_download_no_validation (maxQ : Int) (tid : String) (req : AddRequest)
    (s : ManagerState) (h : queue_full maxQ s = false) :
    ∃ s', add_download maxQ tid req s = .ok (s', tid) ∧
      get_task tid s' = some { task_id := tid, status := .queued, progress := 0,
                               created_at := s.now, updated_at := s.now } ∧
      get_flag tid s' = false ∧
      s'.queue = s.queue ++ [{ task_id := tid, url := req.url, format := req.format,
                               quality := req.quality, audio_only := req.audio_only,
                               playlist_items := req.playlist_items }] := by
  refine ⟨{ s with
              tasks := setKey tid { task_id := tid, status := .queued, progress := 0,
                                    created_at := s.now, updated_at := s.now } s.tasks
              cancel_flags := setKey tid false s.cancel_flags
              queue := s.queue ++ [{ task_id := tid, url := req.url, format := req.format,
                                     quality := req.quality, audio_only := req.audio_only,
                                     playlist_items := req.playlist_items }]
              now := s.now + 1 }, ?_, ?_, ?_, ?_⟩
  · simp [add_download, h]
  · simp [get_task, getKey?_setKey_self]
  · simp [get_flag, getKey?_setKey_self]
  · rfl

theorem add_download_no_validation_witness :
    ∃ s', add_download 50 "t1" empty_url_request empty_state = .ok (s', "t1") ∧
      get_task "t1" s' = some { task_id := "t1", status := .queued, progress := 0,
                                created_at := 0, updated_at := 0 } ∧
      get_flag "t1" s' = false ∧
      s'.queue = [] ++ [{ task_id := "t1", url := "", format := "mp4",
                          quality := "best", audio_only := false,
                          playlist_items := none }] :=
  add_download_no_validation 50 "t1" empty_url_request empty_state (by decide)

/-- Claim C7 counterexample: a stored task in the non-terminal `Processing`
state cannot be cancelled — `cancel_download` returns `False` and changes
nothing; an unknown id also yields `False`, not a distinct not-found error. -/
theorem cancel_processing_returns_false :
    (get_task "t1" processing_state).map (fun t => t.status) = some .processing ∧
    cancel_download "t1" processing_state = (false, processing_state) :=
  ⟨rfl, rfl⟩

/-- Claim C7 (amended): `cancel_download` succeeds exactly for stored tasks
whose status is `Queued`, `Downloading`, or `FetchingInfo` — setting the
cancellation flag and immediately marking the status `Cancelled` — while a
stored `Processing` or terminal task and an unknown id both get a plain
`False` return with the state unchanged. -/
theorem cancel_download_spec :
    (∀ (s : ManagerState) (tid : String) (t : DownloadProgress),
        get_task tid s = some t →
        t.status ∈ [DownloadStatus.queued, .downloading, .fetching_info] →
        (cancel_download tid s).1 = true ∧
        get_task tid (cancel_download tid s).2 =
          some { t with status := .cancelled, updated_at := s.now } ∧
        get_flag tid (cancel_download tid s).2 = true) ∧
    (∀ (s : ManagerState) (tid : String) (t : DownloadProgress),
        get_task tid s = some t →
        t.status ∈ [DownloadStatus.processing, .completed, .failed, .cancelled] →
        cancel_download tid s = (false, s)) ∧
    (∀ (s : ManagerState) (tid : String),
        get_task tid s = none → cancel_download tid s = (false, s)) := by
  refine ⟨?_, ?_, ?_⟩
  · intro s tid t h1 h2
    have h1' : getKey? tid s.tasks = some t := h1
    simp only [cancel_download, h1', if_pos h2]
    refine ⟨?_, ?_, ?_⟩
    · trivial
    · simp [get_task, getKey?_setKey_self]
    · simp [get_flag, getKey?_setKey_self]
  · intro s tid t h1 h2
    have h1' : getKey? tid s.tasks = some t := h1
    have hn : t.status ∉ [DownloadStatus.queued, .downloading, .fetching_info] := by
      simp only [List.mem_cons, List.not_mem_nil, or_false] at h2 ⊢
      rcases h2 with h | h | h | h <;> rw [h] <;> decide
    simp only [cancel_download, h1', if_neg hn]
  · intro s tid h1
    have h1' : getKey? tid s.tasks = none := h1
    simp only [cancel_download, h1']

theorem cancel_download_spec_witness :
    ((cancel_download "t1" st_t1).1 = true ∧
      get_task "t1" (cancel_download "t1" st_t1).2 =
        some { task_id := "t1", status := .cancelled, created_at := 0, updated_at := 1 } ∧
      get_flag "t1" (cancel_download "t1" st_t1).2 = true) ∧
    cancel_download "t1" processing_state = (false, processing_state) ∧
    cancel_download "missing" empty_state = (false, empty_state) :=
  ⟨cancel_download_spec.1 st_t1 "t1" _ rfl (by decide),
   cancel_download_spec.2.1 processing_state "t1" _ rfl (by decide),
   cancel_download_spec.2.2 empty_state "missing" rfl⟩

/-- Claim C9: `cleanup_artifact` is idempotent — the first call returns
normally with the workspace tree removed, the second call (on the
already-removed workspace) also returns normally (no exception) and removes
nothing further, and after the first call neither the workspace directory
nor anything under it exists. -/
theorem cleanup_artifact_spec (a : DownloadArtifact) (fs : List (List String)) :
    ∃ fs1, cleanup_artifact a fs = .ok fs1 ∧
      cleanup_artifact a fs1 = .ok fs1 ∧
      a.workspace ∉ fs1 ∧
      ∀ p ∈ fs1, a.workspace.isPrefixOf p = false := by
  refine ⟨rmtree_ignore_errors a.workspace fs, rfl, ?_, ?_, ?_⟩
  · show Except.ok (rmtree_ignore_errors a.workspace (rmtree_ignore_errors a.workspace fs)) =
        Except.ok (rmtree_ignore_errors a.workspace fs)
    have h4 : rmtree_ignore_errors a.workspace (rmtree_ignore_errors a.workspace fs) =
        rmtree_ignore_errors a.workspace fs := by
      unfold rmtree_ignore_errors
      rw [List.filter_filter]
      congr 1
      funext p
      exact Bool.and_self _
    rw [h4]
  · intro hmem
    rw [rmtree_ignore_errors, List.mem_filter] at hmem
    have h2 := hmem.2
    rw [Bool.not_eq_true'] at h2
    have h3 : a.workspace.isPrefixOf a.workspace = true := by
      rw [ List.isPrefixOf_iff_prefix]
    rw [h2] at h3
    exact absurd h3 (by decide)
  · intro p hp
    rw [rmtree_ignore_errors, List.mem_filter] at hp
    have h2 := hp.2
    rwa [Bool.not_eq_true'] at h2

/-- A concrete artifact and filesystem for the cleanup witness. -/
def demo_artifact : DownloadArtifact :=
  { filepath := ["tmp", "yt-stream-1", "Video.mp4"], filename := "Video.mp4",
    filesize := some 1024, workspace := ["tmp", "yt-stream-1"] }

/-- A filesystem holding the workspace, its contents, and unrelated entries. -/
def demo_fs : List (List String) :=
  [["tmp"], ["tmp", "yt-stream-1"], ["tmp", "yt-stream-1", "Video.mp4"], ["keep", "other"]]

theorem cleanup_artifact_spec_witness :
    ∃ fs1, cleanup_artifact demo_artifact demo_fs = .ok fs1 ∧
      cleanup_artifact demo_artifact fs1 = .ok fs1 ∧
      demo_artifact.workspace ∉ fs1 ∧
      ∀ p ∈ fs1, demo_artifact.workspace.isPrefixOf p = false :=
  cleanup_artifact_spec demo_artifact demo_fs

/-- Claim C8: `clear_completed` removes exactly the records whose status is
terminal (`Completed`, `Failed`, `Cancelled`) together with their
cancellation flags, leaves every non-terminal record (and its flag)
untouched, leaves the queue alone, and returns the number of records
removed.  The `Nodup` hypotheses state that ids are unique keys, as they are
in the Python dicts. -/
theorem clear_completed_spec (s : ManagerState)
    (hT : (keys s.tasks).Nodup) (hF : (keys s.cancel_flags).Nodup) :
    (clear_completed s).1 = (s.tasks.filter (fun p => isTerminal p.2.status)).length ∧
    (clear_completed s).2.queue = s.queue ∧
    ∀ tid t, get_task tid s = some t →
      (isTerminal t.status = true →
          get_task tid (clear_completed s).2 = none ∧
          getKey? tid (clear_completed s).2.cancel_flags = none) ∧
      (isTerminal t.status = false →
          get_task tid (clear_completed s).2 = some t ∧
          getKey? tid (clear_completed s).2.cancel_flags = getKey? tid s.cancel_flags) := by
  refine ⟨List.length_map _ _, rfl, ?_⟩
  intro tid t ht
  have ht' : getKey? tid s.tasks = some t := ht
  constructor
  · intro hterm
    have hmem : tid ∈ (s.tasks.filter (fun p => isTerminal p.2.status)).map (fun p => p.1) :=
      List.mem_map.mpr ⟨(tid, t),
        List.mem_filter.mpr ⟨mem_of_getKey?_eq_some ht', hterm⟩, rfl⟩
    exact ⟨getKey?_foldl_eraseKey_mem _ _ _ hT hmem,
      getKey?_foldl_eraseKey_mem _ _ _ hF hmem⟩
  · intro hterm
    have hnmem : tid ∉ (s.tasks.filter (fun p => isTerminal p.2.status)).map (fun p => p.1) := by
      intro hmem
      obtain ⟨p, hp, hp1⟩ := List.mem_map.mp hmem
      obtain ⟨a, b⟩ := p
      have hpf := List.mem_filter.mp hp
      rw [show a = tid from hp1] at hpf
      have hsome : getKey? tid s.tasks = some b := getKey?_eq_some_of_mem hT hpf.1
      rw [ht'] at hsome
      rw [show t = b from Option.some_inj.mp hsome] at hterm
      rw [hpf.2] at hterm
      exact absurd hterm (by decide)
    constructor
    · show getKey? tid
          (((s.tasks.filter (fun p => isTerminal p.2.status)).map (fun p => p.1)).foldl
            (fun acc i => eraseKey i acc) s.tasks) = some t
      rw [getKey?_foldl_eraseKey_not_mem _ _ _ hnmem]
      exact ht'
    · show getKey? tid
          (((s.tasks.filter (fun p => isTerminal p.2.status)).map (fun p => p.1)).foldl
            (fun acc i => eraseKey i acc) s.cancel_flags) = getKey? tid s.cancel_flags
      exact getKey?_foldl_eraseKey_not_mem _ _ _ hnmem

/-- A manager with two terminal tasks (one completed, one failed), one
queued, one downloading — the Scenario E shape. -/
def mixed_state : ManagerState :=
  { tasks := [("a", { task_id := "a", status := .completed, created_at := 0, updated_at := 0 }),
              ("b", { task_id := "b", status := .failed, created_at := 0, updated_at := 0 }),
              ("c", { task_id := "c", status := .queued, created_at := 0, updated_at := 0 }),
              ("d", { task_id := "d", status := .downloading, created_at := 0, updated_at := 0 })],
    cancel_flags := [("a", false), ("b", false), ("c", false), ("d", false)],
    queue := [],
    now := 4 }

theorem clear_completed_spec_witness :
    (clear_completed mixed_state).1 =
      (mixed_state.tasks.filter (fun p => isTerminal p.2.status)).length ∧
    (clear_completed mixed_state).2.queue = mixed_state.queue ∧
    ∀ tid t, get_task tid mixed_state = some t →
      (isTerminal t.status = true →
          get_task tid (clear_completed mixed_state).2 = none ∧
          getKey? tid (clear_completed mixed_state).2.cancel_flags = none) ∧
      (isTerminal t.status = false →
          get_task tid (clear_completed mixed_state).2 = some t ∧
          getKey? tid (clear_completed mixed_state).2.cancel_flags =
            getKey? tid mixed_state.cancel_flags) :=
  clear_completed_spec mixed_state (by decide) (by decide)

/-- The cancellation-flag table and the task table hold exactly the same
ids. -/
def idsAligned (s : ManagerState) : Prop :=
  ∀ tid : String, (getKey? tid s.tasks).isSome = (getKey? tid s.cancel_flags).isSome

/-- Claim C10: every mutating public scheduler operation preserves the
invariant that `cancel_flags` and `tasks` have the same id set:
`add_download` inserts record and `false` flag together, `cancel_download`
only updates existing entries, and `remove_task` / `clear_completed` delete
each record together with its flag. -/
theorem scheduler_preserves_alignment :
    (∀ (maxQ : Int) (tid rid : String) (req : AddRequest) (s s' : ManagerState),
        idsAligned s → add_download maxQ tid req s = .ok (s', rid) → idsAligned s') ∧
    (∀ (tid : String) (s : ManagerState), idsAligned s →
        idsAligned (cancel_download tid s).2) ∧
    (∀ (tid : String) (s : ManagerState), idsAligned s →
        (keys s.tasks).Nodup → (keys s.cancel_flags).Nodup →
        idsAligned (remove_task tid s).2) ∧
    (∀ (s : ManagerState), idsAligned s →
        (keys s.tasks).Nodup → (keys s.cancel_flags).Nodup →
        idsAligned (clear_completed s).2) := by
  refine ⟨?_, ?_, ?_, ?_⟩
  · intro maxQ tid rid req s s' hA heq
    by_cases hq : queue_full maxQ s
    · simp [add_download, hq] at heq
    · simp only [add_download, hq, Bool.false_eq_true, if_false, Except.ok.injEq,
        Prod.mk.injEq] at heq
      obtain ⟨hs', _⟩ := heq
      subst hs'
      intro k
      by_cases hk : k = tid
      · subst hk
        show (getKey? k (setKey k _ s.tasks)).isSome = (getKey? k (setKey k false s.cancel_flags)).isSome
        rw [getKey?_setKey_self, getKey?_setKey_self]
        rfl
      · show (getKey? k (setKey tid _ s.tasks)).isSome = (getKey? k (setKey tid false s.cancel_flags)).isSome
        rw [getKey?_setKey_ne _ _ _ _ hk, getKey?_setKey_ne _ _ _ _ hk]
        exact hA k
  · intro tid s hA
    cases h : getKey? tid s.tasks with
    | none => simpa [cancel_download, h] using hA
    | some t =>
        by_cases hm : t.status ∈ [DownloadStatus.queued, .downloading, .fetching_info]
        · intro k
          simp only [cancel_download, h, if_pos hm]
          by_cases hk : k = tid
          · subst hk
            show (getKey? k (setKey k _ s.tasks)).isSome = (getKey? k (setKey k true s.cancel_flags)).isSome
            rw [getKey?_setKey_self, getKey?_setKey_self]
            rfl
          · show (getKey? k (setKey tid _ s.tasks)).isSome = (getKey? k (setKey tid true s.cancel_flags)).isSome
            rw [getKey?_setKey_ne _ _ _ _ hk, getKey?_setKey_ne _ _ _ _ hk]
            exact hA k
        · simpa [cancel_download, h, hm] using hA
  · intro tid s hA hT hF
    cases h : getKey? tid s.tasks with
    | none => simpa [remove_task, h] using hA
    | some t =>
        intro k
        simp only [remove_task, h]
        by_cases hk : k = tid
        · subst hk
          show (getKey? k (eraseKey k s.tasks)).isSome = (getKey? k (eraseKey k s.cancel_flags)).isSome
          rw [getKey?_eraseKey_self _ _ hT, getKey?_eraseKey_self _ _ hF]
          rfl
        · show (getKey? k (eraseKey tid s.tasks)).isSome = (getKey? k (eraseKey tid s.cancel_flags)).isSome
          rw [getKey?_eraseKey_ne _ _ _ hk, getKey?_eraseKey_ne _ _ _ hk]
          exact hA k
  · intro s hA hT hF k
    by_cases hm : k ∈ (s.tasks.filter (fun p => isTerminal p.2.status)).map (fun p => p.1)
    · show (getKey? k (((s.tasks.filter (fun p => isTerminal p.2.status)).map (fun p => p.1)).foldl
          (fun acc i => eraseKey i acc) s.tasks)).isSome =
        (getKey? k (((s.tasks.filter (fun p => isTerminal p.2.status)).map (fun p => p.1)).foldl
          (fun acc i => eraseKey i acc) s.cancel_flags)).isSome
      rw [getKey?_foldl_eraseKey_mem _ _ _ hT hm, getKey?_foldl_eraseKey_mem _ _ _ hF hm]
      rfl
    · show (getKey? k (((s.tasks.filter (fun p => isTerminal p.2.status)).map (fun p => p.1)).foldl
          (fun acc i => eraseKey i acc) s.tasks)).isSome =
        (getKey? k (((s.tasks.filter (fun p => isTerminal p.2.status)).map (fun p => p.1)).foldl
          (fun acc i => eraseKey i acc) s.cancel_flags)).isSome
      rw [getKey?_foldl_eraseKey_not_mem _ _ _ hm, getKey?_foldl_eraseKey_not_mem _ _ _ hm]
      exact hA k

theorem scheduler_preserves_alignment_witness :
    idsAligned st_t1 ∧
    idsAligned (cancel_download "t1" st_t1).2 ∧
    idsAligned (remove_task "t1" st_t1).2 ∧
    idsAligned (clear_completed mixed_state).2 :=
  have hst : idsAligned st_t1 := by
    intro k
    by_cases h : ("t1" : String) = k <;> simp [st_t1, getKey?, h]
  have hmx : idsAligned mixed_state := by
    intro k
    by_cases ha : ("a" : String) = k
    · simp [mixed_state, getKey?, ha]
    · by_cases hb : ("b" : String) = k
      · simp [mixed_state, getKey?, ha, hb]
      · by_cases hc : ("c" : String) = k
        · simp [mixed_state, getKey?, ha, hb, hc]
        · by_cases hd : ("d" : String) = k <;> simp [mixed_state, getKey?, ha, hb, hc, hd]
  ⟨scheduler_preserves_alignment.1 50 "t1" "t1" base_request empty_state st_t1
      (fun _ => rfl) st_t1_from_add,
   scheduler_preserves_alignment.2.1 "t1" st_t1 hst,
   scheduler_preserves_alignment.2.2.1 "t1" st_t1 hst (by decide) (by decide),
   scheduler_preserves_alignment.2.2.2 mixed_state hmx (by decide) (by decide)⟩

/-- A job whose download reports progress 50 and then 30 (yt-dlp restarts a
fragment). -/
def job_c4 : WorkerJob :=
  { task_id := "t1", extract := .ok "Video",
    hooks := [.downloading (some 50) "1.0MiB/s" "00:10" 500 1000,
              .downloading (some 30) "1.0MiB/s" "00:15" 300 1000],
    file_path := "downloads/Video.mp4" }

/-- Claim C4 counterexample: `_progress_hook` performs no clamping — while
the task is `Downloading`, a hook reporting 50 followed by one reporting 30
leaves the stored progress at 30: the recorded sequence decreases. -/
theorem progress_can_decrease :
    ((get_task "t1" (run_trace job_c4 (List.replicate 5 .wstep) (st_t1, .precheck)).1).map
        (fun t => (t.status, t.progress)) = some (.downloading, 50)) ∧
    ((get_task "t1" (run_trace job_c4 (List.replicate 6 .wstep) (st_t1, .precheck)).1).map
        (fun t => (t.status, t.progress)) = some (.downloading, 30)) :=
  ⟨rfl, rfl⟩

/-- Claim C4 (amended): the progress write is last-write-wins — a
`downloading` hook whose percent parses to `p` stores exactly `p`
(together with speed/eta/byte counters), with no comparison against the
previously recorded progress, so a smaller reported value overwrites a
larger stored one. -/
theorem hook_write_is_last_write_wins (job : WorkerJob) (s : ManagerState)
    (t : DownloadProgress) (p : Rat) (sp et : String) (dl tot : Nat)
    (rest : List HookEvent)
    (ht : get_task job.task_id s = some t)
    (hf : get_flag job.task_id s = false) :
    get_task job.task_id
        (worker_step job s (.downloading (.downloading (some p) sp et dl tot :: rest))).1 =
      some { t with progress := p, speed := some sp, eta := some et,
                    downloaded_bytes := some dl, total_bytes := some tot,
                    updated_at := s.now } ∧
    (worker_step job s (.downloading (.downloading (some p) sp et dl tot :: rest))).2 =
      .downloading rest := by
  have ht' : getKey? job.task_id s.tasks = some t := ht
  constructor
  · simp only [worker_step, hf, Bool.false_eq_true, if_false, apply_hook, update_task, ht']
    simp [get_task, getKey?_setKey_self]
  · simp only [worker_step, hf, Bool.false_eq_true, if_false]

/-- A manager whose single task is mid-download with progress 50. -/
def downloading_state : ManagerState :=
  { tasks := [("t1", { task_id := "t1", status := .downloading, progress := 50,
                       created_at := 0, updated_at := 2 })],
    cancel_flags := [("t1", false)],
    queue := [],
    now := 3 }

theorem hook_write_is_last_write_wins_witness :
    get_task "t1" (worker_step job_c4 downloading_state
        (.downloading (.downloading (some 30) "1.0MiB/s" "00:15" 300 1000 :: []))).1 =
      some { task_id := "t1", status := .downloading, progress := 30,
             speed := some "1.0MiB/s", eta := some "00:15",
             downloaded_bytes := some 300, total_bytes := some 1000,
             created_at := 0, updated_at := 3 } ∧
    (worker_step job_c4 downloading_state
        (.downloading (.downloading (some 30) "1.0MiB/s" "00:15" 300 1000 :: []))).2 =
      .downloading [] :=
  hook_write_is_last_write_wins job_c4 downloading_state _ 30 "1.0MiB/s" "00:15" 300 1000 []
    rfl rfl

/-- Helper: an uninterleaved run of one item whose `extract_info` succeeds
and whose download fires no hooks ends with the task `Completed` and the
worker finished. -/
theorem process_item_ok_no_hooks (job : WorkerJob) (title : String) (s : ManagerState)
    (t : DownloadProgress) (hex : job.extract = .ok title) (hhooks : job.hooks = [])
    (ht : get_task job.task_id s = some t) (hf : get_flag job.task_id s = false) :
    (get_task job.task_id (process_item job s).1).map (fun u => u.status) =
      some .completed ∧
    (process_item job s).2 = .done := by
  have ht' : getKey? job.task_id s.tasks = some t := ht
  let t1 : DownloadProgress := { t with status := .fetching_info, updated_at := s.now }
  let s1 : ManagerState :=
    { s with tasks := setKey job.task_id t1 s.tasks, now := s.now + 1 }
  let t2 : DownloadProgress :=
    { t1 with title := some title, status := .downloading, updated_at := s.now + 1 }
  let s2 : ManagerState :=
    { s1 with tasks := setKey job.task_id t2 s1.tasks, now := s.now + 2 }
  let t3 : DownloadProgress :=
    { t2 with status := .completed, progress := 100, file_path := some job.file_path,
              updated_at := s.now + 2 }
  let s3 : ManagerState :=
    { s2 with tasks := setKey job.task_id t3 s2.tasks, now := s.now + 3 }
  have hf1 : get_flag job.task_id s1 = false := hf
  have hf2 : get_flag job.task_id s2 = false := hf
  have step1 : exec_action job .wstep (s, .precheck) = (s, .set_fetching) := by
    simp [exec_action, worker_step, hf]
  have step2 : exec_action job .wstep (s, .set_fetching) = (s1, .extracting) := by
    simp [exec_action, worker_step, update_task, ht', s1, t1]
  have step3 : exec_action job .wstep (s1, .extracting) = (s2, .check_cancel) := by
    simp [exec_action, worker_step, hex, update_task, s1, t1, s2, t2,
      getKey?_setKey_self]
  have step4 : exec_action job .wstep (s2, .check_cancel) = (s2, .downloading []) := by
    simp [exec_action, worker_step, hf2, hhooks]
  have step5 : exec_action job .wstep (s2, .downloading []) = (s3, .done) := by
    simp [exec_action, worker_step, update_task, s2, t2, s3, t3, getKey?_setKey_self]
  have hrun : process_item job s = (s3, .done) := by
    show run_trace job (List.replicate (job.hooks.length + 5) .wstep) (s, .precheck) = _
    rw [hhooks]
    show run_trace job (.wstep :: .wstep :: .wstep :: .wstep :: .wstep :: []) (s, .precheck) = _
    rw [run_trace_cons, step1, run_trace_cons, step2, run_trace_cons, step3,
      run_trace_cons, step4, run_trace_cons, step5]
    rfl
  rw [hrun]
  constructor
  · show ((getKey? job.task_id s3.tasks).map (fun u => u.status)) = some .completed
    simp [s3, getKey?_setKey_self, t3]
  · rfl

/-- The worker job for a fetch that fails with the message `"private video"`. -/
def job_fail : WorkerJob :=
  { task_id := "t1", extract := .error "private video", hooks := [],
    file_path := "unused" }

/-- A manager holding two queued tasks `t1` and `t2`. -/
def st_t1_t2 : ManagerState :=
  { tasks := [("t1", { task_id := "t1", status := .queued, created_at := 0, updated_at := 0 }),
              ("t2", { task_id := "t2", status := .queued, created_at := 1, updated_at := 1 })],
    cancel_flags := [("t1", false), ("t2", false)],
    queue := [],
    now := 2 }

/-- Claim C5: when the fetch raises, `_download_video` catches the exception:
the task becomes `Failed` with `error` set to the exception's message
verbatim, the worker body returns normally (`done`), no other task's record
and no cancellation flag is touched, and the worker loop goes on to process
the next queued item (shown: a subsequent healthy item still completes). -/
theorem worker_fetch_error_contained (job : WorkerJob) (e : String) (s : ManagerState)
    (t : DownloadProgress) (hex : job.extract = .error e)
    (ht : get_task job.task_id s = some t) (hf : get_flag job.task_id s = false) :
    (get_task job.task_id (process_item job s).1).map (fun u => (u.status, u.error)) =
      some (.failed, some e) ∧
    (process_item job s).2 = .done ∧
    (process_item job s).1.cancel_flags = s.cancel_flags ∧
    (∀ k, k ≠ job.task_id → get_task k (process_item job s).1 = get_task k s) ∧
    (∀ (tid2 title2 fp2 : String) (u : DownloadProgress), tid2 ≠ job.task_id →
        get_task tid2 s = some u → get_flag tid2 s = false →
        (get_task tid2 (worker_loop
            [job, { task_id := tid2, extract := .ok title2, hooks := [], file_path := fp2 }]
            s)).map (fun v => v.status) = some .completed) := by
  have ht' : getKey? job.task_id s.tasks = some t := ht
  let t1 : DownloadProgress := { t with status := .fetching_info, updated_at := s.now }
  let s1 : ManagerState :=
    { s with tasks := setKey job.task_id t1 s.tasks, now := s.now + 1 }
  let t2 : DownloadProgress :=
    { t1 with status := .failed, error := some e, updated_at := s.now + 1 }
  let s2 : ManagerState :=
    { s1 with tasks := setKey job.task_id t2 s1.tasks, now := s.now + 2 }
  have step1 : exec_action job .wstep (s, .precheck) = (s, .set_fetching) := by
    simp [exec_action, worker_step, hf]
  have step2 : exec_action job .wstep (s, .set_fetching) = (s1, .extracting) := by
    simp [exec_action, worker_step, update_task, ht', s1, t1]
  have step3 : exec_action job .wstep (s1, .extracting) = (s2, .done) := by
    simp [exec_action, worker_step, hex, update_task, s1, t1, s2, t2,
      getKey?_setKey_self]
  have hrun : process_item job s = (s2, .done) := by
    show run_trace job (List.replicate (job.hooks.length + 5) .wstep) (s, .precheck) = _
    rw [List.replicate_succ, run_trace_cons, step1,
      List.replicate_succ, run_trace_cons, step2,
      List.replicate_succ, run_trace_cons, step3,
      run_wsteps_done]
  refine ⟨?_, ?_, ?_, ?_, ?_⟩
  · rw [hrun]
    show ((getKey? job.task_id s2.tasks).map (fun u => (u.status, u.error))) = _
    simp [s2, getKey?_setKey_self, t2]
  · rw [hrun]
  · rw [hrun]
  · intro k hk
    rw [hrun]
    show getKey? k s2.tasks = getKey? k s.tasks
    simp [s2, s1, getKey?_setKey_ne _ _ _ _ hk]
  · intro tid2 title2 fp2 u hne hget hflag
    show (get_task tid2 (process_item
        { task_id := tid2, extract := .ok title2, hooks := [], file_path := fp2 }
        (process_item job s).1).1).map (fun v => v.status) = some .completed
    rw [hrun]
    have hget2 : get_task tid2 s2 = some u := by
      show getKey? tid2 s2.tasks = some u
      rw [show s2.tasks = setKey job.task_id t2 s1.tasks from rfl,
        getKey?_setKey_ne _ _ _ _ hne,
        show s1.tasks = setKey job.task_id t1 s.tasks from rfl,
        getKey?_setKey_ne _ _ _ _ hne]
      exact hget
    have hflag2 : get_flag tid2 s2 = false := hflag
    exact (process_item_ok_no_hooks
      { task_id := tid2, extract := .ok title2, hooks := [], file_path := fp2 }
      title2 s2 u rfl rfl hget2 hflag2).1

theorem worker_fetch_error_contained_witness :
    (get_task "t1" (process_item job_fail st_t1_t2).1).map
        (fun u => (u.status, u.error)) = some (.failed, some "private video") ∧
    (get_task "t2" (worker_loop
        [job_fail, { task_id := "t2", extract := .ok "Video2", hooks := [],
                     file_path := "v2.mp4" }] st_t1_t2)).map (fun v => v.status) =
      some .completed :=
  have h := worker_fetch_error_contained job_fail "private video" st_t1_t2 _ rfl rfl rfl
  ⟨h.1, h.2.2.2.2 "t2" "Video2" "v2.mp4" _ (by decide) rfl rfl⟩

/-! ## Terminal immutability (C2) -/

/-- A job whose download fires one progress hook. -/
def job_c2 : WorkerJob :=
  { task_id := "t1", extract := .ok "Video",
    hooks := [.downloading (some 10) "1.0MiB/s" "00:30" 100 1000],
    file_path := "v.mp4" }

/-- The configuration after the worker has set `DOWNLOADING`, passed its flag
check, and is inside `ydl.download` with one hook still to fire. -/
def c2_mid : ManagerState × WorkerPc :=
  run_trace job_c2 (List.replicate 4 .wstep) (st_t1, .precheck)

/-- State `c2_mid` after a successful `cancel_download`. -/
def c2_after_cancel : ManagerState × WorkerPc :=
  ((cancel_download "t1" c2_mid.1).2, c2_mid.2)

/-- Claim C2 counterexample: `Cancelled` is terminal, yet it is overwritten.
`cancel_download` succeeds mid-download and writes status `Cancelled`; the
next progress hook sees the flag, raises, and `_download_video`'s `except`
clause rewrites the record to `Failed` with error `"Download cancelled"` —
a later `Get` returns a different status than the terminal one. -/
theorem cancelled_status_overwritten :
    (cancel_download "t1" c2_mid.1).1 = true ∧
    (get_task "t1" c2_after_cancel.1).map (fun u => u.status) = some .cancelled ∧
    (get_task "t1" (run_trace job_c2 [.wstep] c2_after_cancel).1).map
        (fun u => (u.status, u.error)) = some (.failed, some "Download cancelled") :=
  ⟨rfl, rfl, rfl⟩

/-- Invariant: the worker is finished, task-table keys are unique, and the
record for `id` is either stored exactly as `t` or has been removed. -/
def frozen_inv (id : String) (t : DownloadProgress) (c : ManagerState × WorkerPc) : Prop :=
  (keys c.1.tasks).Nodup ∧ c.2 = .done ∧
  (getKey? id c.1.tasks = some t ∨ getKey? id c.1.tasks = none)

theorem frozen_inv_step (job : WorkerJob) (t : DownloadProgress) (a : Action)
    (c : ManagerState × WorkerPc)
    (hstatus : t.status = .completed ∨ t.status = .failed)
    (h : frozen_inv job.task_id t c) :
    frozen_inv job.task_id t (exec_action job a c) := by
  obtain ⟨s, pc⟩ := c
  obtain ⟨hnd, hpc, hloc⟩ := h
  cases hpc
  cases a with
  | wstep => exact ⟨hnd, rfl, hloc⟩
  | cancel tid =>
      cases hg : getKey? tid s.tasks with
      | none =>
          refine ⟨?_, rfl, ?_⟩ <;> simp only [exec_action, cancel_download, hg] <;>
            first | exact hnd | exact hloc
      | some u =>
          by_cases hm : u.status ∈ [DownloadStatus.queued, .downloading, .fetching_info]
          · refine ⟨?_, rfl, ?_⟩
            · simp only [exec_action, cancel_download, hg, if_pos hm]
              exact nodup_keys_setKey _ _ _ hnd
            · by_cases hk : job.task_id = tid
              · subst hk
                rcases hloc with hsome | hnone
                · rw [hg] at hsome
                  have hut : u = t := Option.some_inj.mp hsome
                  subst hut
                  rcases hstatus with hc | hc <;> rw [hc] at hm <;>
                    exact absurd hm (by decide)
                · rw [hg] at hnone
                  exact Option.noConfusion hnone
              · simp only [exec_action, cancel_download, hg, if_pos hm]
                show getKey? job.task_id (setKey tid _ s.tasks) = some t ∨
                  getKey? job.task_id (setKey tid _ s.tasks) = none
                rw [getKey?_setKey_ne _ _ _ _ hk]
                exact hloc
          · refine ⟨?_, rfl, ?_⟩ <;> simp only [exec_action, cancel_download, hg, if_neg hm] <;>
              first | exact hnd | exact hloc
  | remove tid =>
      cases hg : getKey? tid s.tasks with
      | none =>
          refine ⟨?_, rfl, ?_⟩ <;> simp only [exec_action, remove_task, hg] <;>
            first | exact hnd | exact hloc
      | some u =>
          refine ⟨?_, rfl, ?_⟩
          · simp only [exec_action, remove_task, hg]
            exact nodup_keys_eraseKey _ _ hnd
          · simp only [exec_action, remove_task, hg]
            by_cases hk : job.task_id = tid
            · subst hk
              exact Or.inr (getKey?_eraseKey_self _ _ hnd)
            · show getKey? job.task_id (eraseKey tid s.tasks) = some t ∨
                getKey? job.task_id (eraseKey tid s.tasks) = none
              rw [getKey?_eraseKey_ne _ _ _ hk]
              exact hloc
  | clear =>
      refine ⟨nodup_keys_foldl_eraseKey _ _ hnd, rfl, ?_⟩
      by_cases hm : job.task_id ∈
          (s.tasks.filter (fun p => isTerminal p.2.status)).map (fun p => p.1)
      · exact Or.inr (getKey?_foldl_eraseKey_mem _ _ _ hnd hm)
      · show getKey? job.task_id
            (((s.tasks.filter (fun p => isTerminal p.2.status)).map (fun p => p.1)).foldl
              (fun acc i => eraseKey i acc) s.tasks) = some t ∨
          getKey? job.task_id
            (((s.tasks.filter (fun p => isTerminal p.2.status)).map (fun p => p.1)).foldl
              (fun acc i => eraseKey i acc) s.tasks) = none
        rw [getKey?_foldl_eraseKey_not_mem _ _ _ hm]
        exact hloc

theorem frozen_inv_run (job : WorkerJob) (t : DownloadProgress) (acts : List Action)
    (c : ManagerState × WorkerPc)
    (hstatus : t.status = .completed ∨ t.status = .failed)
    (h : frozen_inv job.task_id t c) :
    frozen_inv job.task_id t (run_trace job acts c) := by
  induction acts generalizing c with
  | nil => exact h
  | cons a rest ih => exact ih _ (frozen_inv_step job t a c hstatus h)

/-- Claim C2 (amended): terminal immutability holds for `Completed` and
`Failed` — once the worker has returned (`done`) and the stored record has
status `Completed` or `Failed`, any further interleaving of worker steps and
scheduler calls either leaves the record bit-for-bit unchanged or removes it
from the store, so every later `Get` (absent removal) returns the same
status.  It does not hold for a `Cancelled` status written by
`cancel_download` while the worker is still mid-download: the worker may
overwrite it (see the counterexample). -/
theorem terminal_record_frozen (job : WorkerJob) (t : DownloadProgress)
    (s : ManagerState) (acts : List Action)
    (hT : (keys s.tasks).Nodup)
    (ht : get_task job.task_id s = some t)
    (hstatus : t.status = .completed ∨ t.status = .failed) :
    get_task job.task_id (run_trace job acts (s, .done)).1 = some t ∨
    get_task job.task_id (run_trace job acts (s, .done)).1 = none :=
  (frozen_inv_run job t acts (s, .done) hstatus ⟨hT, rfl, Or.inl ht⟩).2.2

/-- A manager holding one completed task. -/
def completed_state : ManagerState :=
  { tasks := [("t1", { task_id := "t1", status := .completed, progress := 100,
                       file_path := some "downloads/Video.mp4",
                       created_at := 0, updated_at := 5 })],
    cancel_flags := [("t1", false)],
    queue := [],
    now := 6 }

theorem terminal_record_frozen_witness :
    get_task "t1" (run_trace job_c4 [.cancel "t1", .wstep, .remove "zz", .clear]
        (completed_state, .done)).1 =
      some { task_id := "t1", status := .completed, progress := 100,
             file_path := some "downloads/Video.mp4",
             created_at := 0, updated_at := 5 } ∨
    get_task "t1" (run_trace job_c4 [.cancel "t1", .wstep, .remove "zz", .clear]
        (completed_state, .done)).1 = none :=
  terminal_record_frozen job_c4 _ completed_state [.cancel "t1", .wstep, .remove "zz", .clear]
    (by decide) rfl (Or.inl rfl)

/-! ## Cancellation cannot be overtaken by completion (C1) -/

theorem update_task_absent (id : String) (f : DownloadProgress → DownloadProgress)
    (s : ManagerState) (hg : getKey? id s.tasks = none) : update_task id f s = s := by
  simp [update_task, hg]

theorem apply_hook_absent (id : String) (ev : HookEvent) (s : ManagerState)
    (hg : getKey? id s.tasks = none) : apply_hook id ev s = s := by
  cases ev with
  | downloading percent speed eta dl tot =>
      cases percent <;> simp [apply_hook, update_task_absent _ _ _ hg]
  | finished => simp [apply_hook, update_task_absent _ _ _ hg]
  | other => rfl

theorem nodup_tasks_update_task (id : String) (f : DownloadProgress → DownloadProgress)
    (s : ManagerState) (hT : (keys s.tasks).Nodup) :
    (keys (update_task id f s).tasks).Nodup := by
  cases hg : getKey? id s.tasks with
  | none => rw [update_task_absent _ _ _ hg]; exact hT
  | some u =>
      simp only [update_task, hg]
      exact nodup_keys_setKey _ _ _ hT

theorem nodup_tasks_apply_hook (id : String) (ev : HookEvent) (s : ManagerState)
    (hT : (keys s.tasks).Nodup) : (keys (apply_hook id ev s).tasks).Nodup := by
  cases ev with
  | downloading percent speed eta dl tot =>
      cases percent with
      | none => exact hT
      | some p => exact nodup_tasks_update_task _ _ _ hT
  | finished => exact nodup_tasks_update_task _ _ _ hT
  | other => exact hT

theorem get_flag_update_task (k id : String) (f : DownloadProgress → DownloadProgress)
    (s : ManagerState) : get_flag k (update_task id f s) = get_flag k s := by
  unfold get_flag
  rw [update_task_flags]

/-- Invariant for the amended C1: task keys and flag keys are duplicate-free,
and whenever the cancelled task is still stored, its status is not
`Completed`, its cancellation flag is set, and the worker is not sitting at
the unconditional completion write. -/
def no_completed_inv (id : String) (c : ManagerState × WorkerPc) : Prop :=
  (keys c.1.tasks).Nodup ∧ (keys c.1.cancel_flags).Nodup ∧
  ∀ t, getKey? id c.1.tasks = some t →
    t.status ≠ .completed ∧ get_flag id c.1 = true ∧ c.2 ≠ .downloading []

/-- A guarded worker write preserves the invariant, provided the written
status is never `Completed` and the flag was set whenever the task was
present. -/
theorem no_completed_inv_update (id : String) (f : DownloadProgress → DownloadProgress)
    (s : ManagerState) (pc' : WorkerPc)
    (hT : (keys s.tasks).Nodup) (hF : (keys s.cancel_flags).Nodup)
    (hstat : ∀ u, (f u).status ≠ .completed)
    (hpre : ∀ u, getKey? id s.tasks = some u → get_flag id s = true)
    (hpc' : pc' ≠ .downloading []) :
    no_completed_inv id (update_task id f s, pc') := by
  refine ⟨nodup_tasks_update_task _ _ _ hT, ?_, ?_⟩
  · show (keys (update_task id f s).cancel_flags).Nodup
    rw [update_task_flags]
    exact hF
  · intro t' hg'
    cases hg : getKey? id s.tasks with
    | none =>
        rw [update_task_absent _ _ _ hg, hg] at hg'
        exact Option.noConfusion hg'
    | some u =>
        have hred : getKey? id (update_task id f s).tasks =
            some { f u with updated_at := s.now } := by
          simp only [update_task, hg]
          exact getKey?_setKey_self _ _ _
        rw [hred] at hg'
        have ht' : t' = { f u with updated_at := s.now } := (Option.some_inj.mp hg').symm
        subst ht'
        refine ⟨?_, ?_, hpc'⟩
        · show ({ f u with updated_at := s.now }).status ≠ .completed
          exact hstat u
        · rw [get_flag_update_task]
          exact hpre u hg

theorem no_completed_inv_step (job : WorkerJob) (a : Action)
    (c : ManagerState × WorkerPc) (h : no_completed_inv job.task_id c) :
    no_completed_inv job.task_id (exec_action job a c) := by
  obtain ⟨s, pc⟩ := c
  obtain ⟨hT, hF, hP⟩ := h
  cases a with
  | wstep =>
      show no_completed_inv job.task_id (worker_step job s pc)
      cases pc with
      | precheck =>
          by_cases hflag : get_flag job.task_id s
          · rw [show worker_step job s .precheck =
                (update_task job.task_id (fun t => { t with status := .cancelled }) s,
                  .done) from by simp [worker_step, hflag]]
            exact no_completed_inv_update _ _ _ _ hT hF (fun u h => nomatch h)
              (fun _ _ => hflag) (fun h => nomatch h)
          · rw [show worker_step job s .precheck = (s, .set_fetching) from by
                simp [worker_step, hflag]]
            refine ⟨hT, hF, ?_⟩
            intro t' hg'
            rw [(hP t' hg').2.1] at hflag
            exact absurd rfl hflag
      | set_fetching =>
          rw [show worker_step job s .set_fetching =
              (update_task job.task_id (fun t => { t with status := .fetching_info }) s,
                .extracting) from rfl]
          exact no_completed_inv_update _ _ _ _ hT hF (fun u h => nomatch h)
            (fun u hg => (hP u hg).2.1) (fun h => nomatch h)
      | extracting =>
          cases hext : job.extract with
          | error e =>
              rw [show worker_step job s .extracting =
                  (update_task job.task_id
                    (fun t => { t with status := .failed, error := some e }) s,
                    .done) from by simp [worker_step, hext]]
              exact no_completed_inv_update _ _ _ _ hT hF (fun u h => nomatch h)
                (fun u hg => (hP u hg).2.1) (fun h => nomatch h)
          | ok title =>
              rw [show worker_step job s .extracting =
                  (update_task job.task_id
                    (fun t => { t with title := some title, status := .downloading }) s,
                    .check_cancel) from by simp [worker_step, hext]]
              exact no_completed_inv_update _ _ _ _ hT hF (fun u h => nomatch h)
                (fun u hg => (hP u hg).2.1) (fun h => nomatch h)
      | check_cancel =>
          by_cases hflag : get_flag job.task_id s
          · rw [show worker_step job s .check_cancel =
                (update_task job.task_id (fun t => { t with status := .cancelled }) s,
                  .done) from by simp [worker_step, hflag]]
            exact no_completed_inv_update _ _ _ _ hT hF (fun u h => nomatch h)
              (fun _ _ => hflag) (fun h => nomatch h)
          · rw [show worker_step job s .check_cancel = (s, .downloading job.hooks) from by
                simp [worker_step, hflag]]
            refine ⟨hT, hF, ?_⟩
            intro t' hg'
            rw [(hP t' hg').2.1] at hflag
            exact absurd rfl hflag
      | downloading hs =>
          cases hs with
          | cons ev rest =>
              by_cases hflag : get_flag job.task_id s
              · rw [show worker_step job s (.downloading (ev :: rest)) =
                    (update_task job.task_id
                      (fun t => { t with status := .failed,
                                         error := some "Download cancelled" }) s,
                      .done) from by simp [worker_step, hflag]]
                exact no_completed_inv_update _ _ _ _ hT hF (fun u h => nomatch h)
                  (fun _ _ => hflag) (fun h => nomatch h)
              · rw [show worker_step job s (.downloading (ev :: rest)) =
                    (apply_hook job.task_id ev s, .downloading rest) from by
                    simp [worker_step, hflag]]
                refine ⟨nodup_tasks_apply_hook _ _ _ hT, ?_, ?_⟩
                · show (keys (apply_hook job.task_id ev s).cancel_flags).Nodup
                  rw [apply_hook_flags]
                  exact hF
                · intro t' hg'
                  cases hg : getKey? job.task_id s.tasks with
                  | some u =>
                      rw [(hP u hg).2.1] at hflag
                      exact absurd rfl hflag
                  | none =>
                      rw [apply_hook_absent _ _ _ hg, hg] at hg'
                      exact Option.noConfusion hg'
          | nil =>
              rw [show worker_step job s (.downloading []) =
                  (update_task job.task_id
                    (fun t => { t with status := .completed, progress := 100,
                                       file_path := some job.file_path }) s,
                    .done) from rfl]
              refine ⟨nodup_tasks_update_task _ _ _ hT, ?_, ?_⟩
              · show (keys (update_task job.task_id _ s).cancel_flags).Nodup
                rw [update_task_flags]
                exact hF
              · intro t' hg'
                cases hg : getKey? job.task_id s.tasks with
                | some u => exact absurd rfl (hP u hg).2.2
                | none =>
                    rw [update_task_absent _ _ _ hg, hg] at hg'
                    exact Option.noConfusion hg'
      | done =>
          exact ⟨hT, hF, fun t' hg' => ⟨(hP t' hg').1, (hP t' hg').2.1, fun h => nomatch h⟩⟩
  | cancel tid =>
      show no_completed_inv job.task_id ((cancel_download tid s).2, pc)
      cases hg : getKey? tid s.tasks with
      | none =>
          rw [show (cancel_download tid s).2 = s from by simp [cancel_download, hg]]
          exact ⟨hT, hF, hP⟩
      | some u =>
          by_cases hm : u.status ∈ [DownloadStatus.queued, .downloading, .fetching_info]
          · rw [show (cancel_download tid s).2 =
                { s with
                    cancel_flags := setKey tid true s.cancel_flags
                    tasks := setKey tid { u with status := .cancelled, updated_at := s.now }
                      s.tasks
                    now := s.now + 1 } from by
              simp only [cancel_download, hg, if_pos hm]]
            refine ⟨nodup_keys_setKey _ _ _ hT, nodup_keys_setKey _ _ _ hF, ?_⟩
            intro t' hg'
            replace hg' : getKey? job.task_id
                (setKey tid { u with status := .cancelled, updated_at := s.now } s.tasks) =
                some t' := hg'
            by_cases hk : job.task_id = tid
            · subst hk
              rw [getKey?_setKey_self] at hg'
              have ht' : t' = { u with status := .cancelled, updated_at := s.now } :=
                (Option.some_inj.mp hg').symm
              subst ht'
              refine ⟨?_, ?_, ?_⟩
              · exact fun h => nomatch h
              · show (getKey? job.task_id (setKey job.task_id true s.cancel_flags)).getD false
                    = true
                rw [getKey?_setKey_self]
                rfl
              · exact (hP u hg).2.2
            · rw [getKey?_setKey_ne _ _ _ _ hk] at hg'
              obtain ⟨h1, h2, h3⟩ := hP t' hg'
              refine ⟨h1, ?_, h3⟩
              show (getKey? job.task_id (setKey tid true s.cancel_flags)).getD false = true
              rw [getKey?_setKey_ne _ _ _ _ hk]
              exact h2
          · rw [show (cancel_download tid s).2 = s from by
                simp only [cancel_download, hg, if_neg hm]]
            exact ⟨hT, hF, hP⟩
  | remove tid =>
      show no_completed_inv job.task_id ((remove_task tid s).2, pc)
      cases hg : getKey? tid s.tasks with
      | none =>
          rw [show (remove_task tid s).2 = s from by simp [remove_task, hg]]
          exact ⟨hT, hF, hP⟩
      | some u =>
          rw [show (remove_task tid s).2 =
              { s with tasks := eraseKey tid s.tasks,
                       cancel_flags := eraseKey tid s.cancel_flags } from by
              simp [remove_task, hg]]
          refine ⟨nodup_keys_eraseKey _ _ hT, nodup_keys_eraseKey _ _ hF, ?_⟩
          intro t' hg'
          replace hg' : getKey? job.task_id (eraseKey tid s.tasks) = some t' := hg'
          by_cases hk : job.task_id = tid
          · subst hk
            rw [getKey?_eraseKey_self _ _ hT] at hg'
            exact Option.noConfusion hg'
          · rw [getKey?_eraseKey_ne _ _ _ hk] at hg'
            obtain ⟨h1, h2, h3⟩ := hP t' hg'
            refine ⟨h1, ?_, h3⟩
            show (getKey? job.task_id (eraseKey tid s.cancel_flags)).getD false = true
            rw [getKey?_eraseKey_ne _ _ _ hk]
            exact h2
  | clear =>
      show no_completed_inv job.task_id ((clear_completed s).2, pc)
      refine ⟨nodup_keys_foldl_eraseKey _ _ hT, nodup_keys_foldl_eraseKey _ _ hF, ?_⟩
      intro t' hg'
      replace hg' : getKey? job.task_id
          (((s.tasks.filter (fun p => isTerminal p.2.status)).map (fun p => p.1)).foldl
            (fun acc i => eraseKey i acc) s.tasks) = some t' := hg'
      by_cases hm : job.task_id ∈
          (s.tasks.filter (fun p => isTerminal p.2.status)).map (fun p => p.1)
      · rw [getKey?_foldl_eraseKey_mem _ _ _ hT hm] at hg'
        exact Option.noConfusion hg'
      · rw [getKey?_foldl_eraseKey_not_mem _ _ _ hm] at hg'
        obtain ⟨h1, h2, h3⟩ := hP t' hg'
        refine ⟨h1, ?_, h3⟩
        show (getKey? job.task_id
            (((s.tasks.filter (fun p => isTerminal p.2.status)).map (fun p => p.1)).foldl
              (fun acc i => eraseKey i acc) s.cancel_flags)).getD false = true
        rw [getKey?_foldl_eraseKey_not_mem _ _ _ hm]
        exact h2

theorem no_completed_inv_run (job : WorkerJob) (acts : List Action)
    (c : ManagerState × WorkerPc) (h : no_completed_inv job.task_id c) :
    no_completed_inv job.task_id (run_trace job acts c) := by
  induction acts generalizing c with
  | nil => exact h
  | cons a rest ih => exact ih _ (no_completed_inv_step job a c h)

/-- Claim C1 (amended): after `cancel_download(id)` succeeds, no subsequent
`Get(id)` ever returns `Completed` — under every interleaving of worker
steps and scheduler calls — provided the cancel did not land exactly at the
worker's unconditional completion write (program point `downloading []`:
metadata fetched, post-metadata flag check passed, and every progress hook
already consumed).  In that one remaining race the unguarded `COMPLETED`
write overwrites the `Cancelled` status (see the counterexample). -/
theorem cancel_requested_never_completed (job : WorkerJob) (s : ManagerState)
    (pc : WorkerPc) (acts : List Action)
    (hT : (keys s.tasks).Nodup) (hF : (keys s.cancel_flags).Nodup)
    (hok : (cancel_download job.task_id s).1 = true)
    (hpc : pc ≠ .downloading []) :
    (get_task job.task_id
        (run_trace job acts ((cancel_download job.task_id s).2, pc)).1).map
      (fun u => u.status) ≠ some .completed := by
  have hinv : no_completed_inv job.task_id ((cancel_download job.task_id s).2, pc) := by
    cases hg : getKey? job.task_id s.tasks with
    | none =>
        rw [show cancel_download job.task_id s = (false, s) from by
          simp [cancel_download, hg]] at hok
        simp at hok
    | some u =>
        by_cases hm : u.status ∈ [DownloadStatus.queued, .downloading, .fetching_info]
        · rw [show (cancel_download job.task_id s).2 =
              { s with
                  cancel_flags := setKey job.task_id true s.cancel_flags
                  tasks := setKey job.task_id
                    { u with status := .cancelled, updated_at := s.now } s.tasks
                  now := s.now + 1 } from by
            simp only [cancel_download, hg, if_pos hm]]
          refine ⟨nodup_keys_setKey _ _ _ hT, nodup_keys_setKey _ _ _ hF, ?_⟩
          intro t' hg'
          replace hg' : getKey? job.task_id
              (setKey job.task_id { u with status := .cancelled, updated_at := s.now }
                s.tasks) = some t' := hg'
          rw [getKey?_setKey_self] at hg'
          have ht' : t' = { u with status := .cancelled, updated_at := s.now } :=
            (Option.some_inj.mp hg').symm
          subst ht'
          refine ⟨?_, ?_, hpc⟩
          · exact fun h => nomatch h
          · show (getKey? job.task_id (setKey job.task_id true s.cancel_flags)).getD false
                = true
            rw [getKey?_setKey_self]
            rfl
        · rw [show cancel_download job.task_id s = (false, s) from by
            simp only [cancel_download, hg, if_neg hm]] at hok
          simp at hok
  have hend := no_completed_inv_run job acts _ hinv
  intro hcon
  cases hend' : get_task job.task_id
      (run_trace job acts ((cancel_download job.task_id s).2, pc)).1 with
  | none => rw [hend'] at hcon; exact Option.noConfusion hcon
  | some t' =>
      rw [hend'] at hcon
      exact (hend.2.2 t' hend').1 (Option.some_inj.mp hcon)

theorem cancel_requested_never_completed_witness :
    (get_task "t1" (run_trace job_c2 (List.replicate 6 .wstep)
        ((cancel_download "t1" st_t1).2, .precheck)).1).map (fun u => u.status) ≠
      some .completed :=
  cancel_requested_never_completed job_c2 st_t1 .precheck (List.replicate 6 .wstep)
    (by decide) (by decide) (by decide) (by decide)

/-- A job whose download fires no progress hooks at all. -/
def job_c1 : WorkerJob :=
  { task_id := "t1", extract := .ok "Video", hooks := [], file_path := "v.mp4" }

/-- The configuration in which the worker has set `DOWNLOADING`, passed the
post-metadata flag check, and `ydl.download` is about to return with no
further hook to fire. -/
def c1_mid : ManagerState × WorkerPc :=
  run_trace job_c1 (List.replicate 4 .wstep) (st_t1, .precheck)

/-- State `c1_mid` after a successful `cancel_download`. -/
def c1_after_cancel : ManagerState × WorkerPc :=
  ((cancel_download "t1" c1_mid.1).2, c1_mid.2)

/-- Claim C1 counterexample: `cancel_download` succeeds (the task is
`Downloading`, non-terminal, and is marked `Cancelled`), yet the worker —
already past its last cancellation checkpoint — performs its unguarded
`COMPLETED` write, so the very next `Get` returns `Completed` although no
`Remove` was ever issued. -/
theorem cancel_then_completed :
    c1_mid.2 = .downloading [] ∧
    (cancel_download "t1" c1_mid.1).1 = true ∧
    (get_task "t1" (run_trace job_c1 [.wstep] c1_after_cancel).1).map
        (fun u => u.status) = some .completed :=
  ⟨rfl, rfl, rfl⟩

end VideoCode
